import Mathlib

/-!
Verification development for the alembic-visual-manager core
(`src/services/alembicService.ts` and the webview graph script).

Strings are modelled as `List Char`.  The JavaScript regular expressions
used by the source are embedded as first-order matchers with the same
leftmost-match, greedy semantics (none of the patterns involved requires
backtracking, so maximal-munch composition is exact).
-/

abbrev Str := List Char

/-- JavaScript `\s` for the ASCII range (space, tab, CR, LF, VT, FF). -/
def isWs (c : Char) : Bool :=
  c = ' ' || c = '\t' || c = '\n' || c = '\r' || c = '\x0b' || c = '\x0c'

/-- Line terminators excluded by `.` and `[^\r\n]` in the source regexes. -/
def isNL (c : Char) : Bool :=
  c = '\n' || c = '\r'

/-- The character class `[a-f0-9]` of the source's id-matching regexes. -/
def isHex (c : Char) : Bool :=
  ('a' ≤ c && c ≤ 'f') || ('0' ≤ c && c ≤ '9')

/-- The character class `['"]` of the `down_revision` regex. -/
def isQuote (c : Char) : Bool :=
  c = '\'' || c = '"'

/-- `String.prototype.startsWith`. -/
def startsWithStr : Str → Str → Bool
  | [], _ => true
  | _ :: _, [] => false
  | a :: p, b :: l => a = b && startsWithStr p l

/-- `String.prototype.includes` (contiguous substring test). -/
def containsSub (needle : Str) : Str → Bool
  | [] => startsWithStr needle []
  | c :: t => startsWithStr needle (c :: t) || containsSub needle t

/-- Match a literal at the head of the input; return the remainder. -/
def matchLit : Str → Str → Option Str
  | [], l => some l
  | _ :: _, [] => none
  | a :: p, b :: l => if a = b then matchLit p l else none

/-- Greedy maximal-munch split: longest `p`-satisfying run and the rest. -/
def spanP (p : Char → Bool) : Str → Str × Str
  | [] => ([], [])
  | c :: t =>
    if p c then
      let r := spanP p t
      (c :: r.1, r.2)
    else ([], c :: t)

/-- `String.prototype.split('\n')` (always at least one piece). -/
def splitOnNl : Str → List Str
  | [] => [[]]
  | c :: t =>
    let r := splitOnNl t
    if c = '\n' then [] :: r
    else
      match r with
      | h :: rs => (c :: h) :: rs
      | [] => [[c]]

/-- `String.prototype.trim` (whitespace stripped from both ends). -/
def trimStr (l : Str) : Str :=
  ((l.dropWhile isWs).reverse.dropWhile isWs).reverse

/-- `Array.prototype.join('\n')`. -/
def joinNl : List Str → Str
  | [] => []
  | [x] => x
  | x :: y :: r => x ++ '\n' :: joinNl (y :: r)

/-! ### The source's regular expressions as matchers -/

def revKw : Str := ['R', 'e', 'v', ':']
def revSpKw : Str := ['R', 'e', 'v', ':', ' ']
def parentKw : Str := ['P', 'a', 'r', 'e', 'n', 't', ':']
def parentSpKw : Str := ['P', 'a', 'r', 'e', 'n', 't', ':', ' ']
def pathKw : Str := ['P', 'a', 't', 'h', ':']
def mergeKw : Str := ['M', 'e', 'r', 'g', 'e', ' ', 'p', 'o', 'i', 'n', 't', ':']
def revIdKw : Str := ['R', 'e', 'v', 'i', 's', 'i', 'o', 'n', ' ', 'I', 'D', ':']
def revisesKw : Str := ['R', 'e', 'v', 'i', 's', 'e', 's', ':']
def createKw : Str := ['C', 'r', 'e', 'a', 't', 'e', ' ', 'D', 'a', 't', 'e', ':']
def createSpKw : Str :=
  ['C', 'r', 'e', 'a', 't', 'e', ' ', 'D', 'a', 't', 'e', ':', ' ']
def infoKw : Str := ['I', 'N', 'F', 'O', ' ']
def baseTok : Str := ['<', 'b', 'a', 's', 'e', '>']
def noneTok : Str := ['N', 'o', 'n', 'e']
def currentTok : Str := ['c', 'u', 'r', 'r', 'e', 'n', 't']
def headTok : Str := ['h', 'e', 'a', 'd']
def currentParen : Str := ['(', 'c', 'u', 'r', 'r', 'e', 'n', 't', ')']
def headParen : Str := ['(', 'h', 'e', 'a', 'd', ')']
def downrevKw : Str :=
  ['d', 'o', 'w', 'n', '_', 'r', 'e', 'v', 'i', 's', 'i', 'o', 'n']

/-- One attempt of `/Rev: ([a-f0-9]+)(.*)/` at the head of the input:
capture the greedy hex run and the rest of the line. -/
def tryRevAt (l : Str) : Option (Str × Str) :=
  match matchLit revSpKw l with
  | none => none
  | some r =>
    let hexRun := r.takeWhile isHex
    if hexRun.isEmpty then none
    else some (hexRun, (r.dropWhile isHex).takeWhile (fun c => !isNL c))

/-- Leftmost match of `/Rev: ([a-f0-9]+)(.*)/`. -/
def findRevMatch : Str → Option (Str × Str)
  | [] => none
  | c :: t =>
    match tryRevAt (c :: t) with
    | some r => some r
    | none => findRevMatch t

/-- One attempt of `/Parent: ([a-f0-9]+|<base>)/` at the head. -/
def tryParentAt (l : Str) : Option Str :=
  match matchLit parentSpKw l with
  | none => none
  | some r =>
    let hexRun := r.takeWhile isHex
    if !hexRun.isEmpty then some hexRun
    else
      match matchLit baseTok r with
      | some _ => some baseTok
      | none => none

/-- Leftmost match of `/Parent: ([a-f0-9]+|<base>)/`. -/
def findParentMatch : Str → Option Str
  | [] => none
  | c :: t =>
    match tryParentAt (c :: t) with
    | some r => some r
    | none => findParentMatch t

/-- One attempt of `/Create Date: (.+)/` at the head. -/
def tryCreateAt (l : Str) : Option Str :=
  match matchLit createSpKw l with
  | none => none
  | some r =>
    let g := r.takeWhile (fun c => !isNL c)
    if g.isEmpty then none else some g

/-- Leftmost match of `/Create Date: (.+)/`. -/
def findCreateDate : Str → Option Str
  | [] => none
  | c :: t =>
    match tryCreateAt (c :: t) with
    | some r => some r
    | none => findCreateDate t

/-- Worker for `parseParens`, structurally recursive on a fuel bound;
every step consumes at least one character, so `l.length` fuel is enough. -/
def parseParensF : Nat → Str → List Str
  | 0, _ => []
  | _ + 1, [] => []
  | fuel + 1, c :: t =>
    if c = '(' then
      let inner := t.takeWhile (fun d => d ≠ ')')
      let rest := t.dropWhile (fun d => d ≠ ')')
      match rest with
      | ')' :: r =>
        if inner.isEmpty then parseParensF fuel t
        else inner :: parseParensF fuel r
      | _ => parseParensF fuel t
    else parseParensF fuel t

/-- All matches of the global regex `/\(([^)]+)\)/g`: the captured inner
texts of every parenthesised token, scanning left to right. -/
def parseParens (l : Str) : List Str :=
  parseParensF l.length l

/-- First match of `/([a-f0-9]+)/` on a line: the leftmost maximal hex
run, or `none` if the line has no hex character. -/
def firstHexToken : Str → Option Str
  | [] => none
  | c :: t => if isHex c then some (c :: t.takeWhile isHex) else firstHexToken t

/-! ### Data model -/

/-- The `RevisionInfo` interface of `alembicService.ts`. -/
structure RevisionInfo where
  id : Str
  shortId : Str
  message : Str
  branchLabels : List Str
  downRevision : Option Str
  isCurrent : Bool
  isHead : Bool
  isMerge : Bool
  author : Option Str
  date : Option Str
deriving DecidableEq, Repr

/-- `Partial<RevisionInfo>`: the mutable accumulator used while parsing;
`none` models an unset (undefined) field, and for `downRevision` the
inner option models the JavaScript `null`. -/
structure PendingRev where
  id : Option Str := none
  shortId : Option Str := none
  message : Option Str := none
  branchLabels : Option (List Str) := none
  downRevision : Option (Option Str) := none
  isCurrent : Option Bool := none
  isHead : Option Bool := none
  isMerge : Option Bool := none
  author : Option Str := none
  date : Option Str := none
deriving DecidableEq, Repr

/-- `completeRevisionInfo`: freeze an accumulator into a node.  The
status flags come from membership in the two listing sets; the header
hints stored in the accumulator are ignored. -/
def completeRevisionInfo (p : PendingRev) (cur hd : List Str) : RevisionInfo :=
  { id := p.id.getD []
    shortId := p.shortId.getD []
    message := p.message.getD []
    branchLabels := p.branchLabels.getD []
    downRevision := p.downRevision.getD none
    isCurrent := cur.contains (p.id.getD [])
    isHead := hd.contains (p.id.getD [])
    isMerge := p.isMerge.getD false
    author := p.author
    date := p.date }

/-- `parseCurrentRevisions`: for each line of the blob, the first match
of `/([a-f0-9]+)/` is pushed onto an array (no deduplication). -/
def parseCurrentRevisions (output : Str) : List Str :=
  (splitOnNl output).filterMap firstHexToken

/-- `parseHeadRevisions`: identical body to `parseCurrentRevisions`. -/
def parseHeadRevisions (output : Str) : List Str :=
  (splitOnNl output).filterMap firstHexToken

/-- The local mutable state of a `parseHistory` run. -/
structure PState where
  acc : PendingRev
  msgs : List Str
  inMessage : Bool
  revs : List RevisionInfo
deriving DecidableEq, Repr

def initPState : PState := ⟨{}, [], false, []⟩

/-- Finalisation of the accumulator: attach the pending message lines
(joined by newline and trimmed) when there are any. -/
def attachMsg (p : PendingRev) (msgs : List Str) : PendingRev :=
  if msgs.isEmpty then p else { p with message := some (trimStr (joinNl msgs)) }

/-- The record (zero or one) flushed when a new `Rev:` header or the end
of input is reached: emitted only when the accumulator has an id. -/
def pendingFlush (cur hd : List Str) (s : PState) : List RevisionInfo :=
  match s.acc.id with
  | some _ => [completeRevisionInfo (attachMsg s.acc s.msgs) cur hd]
  | none => []

/-- One iteration of the `parseHistory` line loop. -/
def stepLine (cur hd : List Str) (s : PState) (line : Str) : PState :=
  let t := trimStr line
  if startsWithStr revKw t then
    let flushed := s.revs ++ pendingFlush cur hd s
    match findRevMatch t with
    | some (rid, statusPart) =>
      { acc :=
          { id := some rid
            shortId := some (rid.take 8)
            isCurrent := some (containsSub currentParen statusPart)
            isHead := some (containsSub headParen statusPart)
            branchLabels := some ((parseParens statusPart).filter
              (fun lb => !(lb == currentTok) && !(lb == headTok))) }
        msgs := []
        inMessage := false
        revs := flushed }
    | none => { acc := {}, msgs := [], inMessage := false, revs := flushed }
  else if startsWithStr parentKw t then
    match findParentMatch t with
    | some tok =>
      let dr : Option Str := if tok == baseTok then none else some tok
      { s with acc := { s.acc with downRevision := some dr } }
    | none => s
  else if startsWithStr pathKw t then
    { s with inMessage := false }
  else if startsWithStr mergeKw t then
    { s with acc := { s.acc with isMerge := some true } }
  else if startsWithStr revIdKw t || startsWithStr revisesKw t
      || startsWithStr createKw t then
    let s' :=
      if startsWithStr createKw t then
        match findCreateDate t with
        | some d => { s with acc := { s.acc with date := some d } }
        | none => s
      else s
    { s' with inMessage := false }
  else if !t.isEmpty && !s.inMessage && !startsWithStr infoKw t then
    { s with inMessage := true, msgs := s.msgs ++ [t] }
  else if s.inMessage && !t.isEmpty && !startsWithStr infoKw t then
    { s with msgs := s.msgs ++ [t] }
  else if s.inMessage && t.isEmpty then
    { s with inMessage := false }
  else s

/-- `parseHistory`: scan the lines, flush the last accumulator, and
reverse (the CLI lists newest first). -/
def parseHistory (output : Str) (cur hd : List Str) : List RevisionInfo :=
  let final := (splitOnNl output).foldl (stepLine cur hd) initPState
  (final.revs ++ pendingFlush cur hd final).reverse

/-! ### Graph query engine (webview script) -/

/-- The `isAncestor` while-loop with explicit fuel: `none` means the
loop is still running after `fuel` iterations (the source has no
visited-set, so on a cyclic graph the loop never exits). -/
def isAncestorFuel (revs : List RevisionInfo) (ancId : Str) :
    Option RevisionInfo → Nat → Option Bool
  | _, 0 => none
  | none, _ + 1 => some false
  | some cur, fuel + 1 =>
    match cur.downRevision with
    | none => some false
    | some [] => some false
    | some d =>
      if d = ancId then some true
      else isAncestorFuel revs ancId (revs.find? (fun r => r.id == d)) fuel

/-- The `revisions.some(r => r.isCurrent && isAncestor(revision, r))`
part of `isApplied`, sequential with short-circuiting; `none` when an
inner ancestor walk fails to terminate within the fuel. -/
def someApplied (all : List RevisionInfo) (nId : Str) (fuel : Nat) :
    List RevisionInfo → Option Bool
  | [] => some false
  | r :: rest =>
    if r.isCurrent then
      match isAncestorFuel all nId (some r) fuel with
      | none => none
      | some true => some true
      | some false => someApplied all nId fuel rest
    else someApplied all nId fuel rest

/-- `isApplied` with fuel for the inner ancestor walks. -/
def isAppliedFuel (all : List RevisionInfo) (node : RevisionInfo)
    (fuel : Nat) : Option Bool :=
  if node.isCurrent then some true else someApplied all node.id fuel all

/-! ### Dependency mutation planner (`modifyDependency` text rewrite) -/

/-- Attempt of `Revises:\s*[^\r\n]*` at the head; returns the remainder
after the (greedy) match. -/
def matchRevisesAt (l : Str) : Option Str :=
  match matchLit revisesKw l with
  | none => none
  | some r =>
    let r1 := (spanP isWs r).2
    some ((spanP (fun c => !isNL c) r1).2)

/-- Tracks whether the position after scanning a prefix is a `^` anchor
position of a multiline JavaScript regex. -/
def lineStartAfter (s : Bool) : Str → Bool
  | [] => s
  | c :: t => lineStartAfter (isNL c) t

/-- `text.replace(/^Revises:\s*[^\r\n]*/m, repl)`: replace the leftmost
match anchored at a line start; identity when there is no match. -/
def replaceRevises (repl : Str) : Bool → Str → Str
  | _, [] => []
  | atStart, c :: t =>
    if atStart then
      match matchRevisesAt (c :: t) with
      | some rest => repl ++ rest
      | none => c :: replaceRevises repl (isNL c) t
    else c :: replaceRevises repl (isNL c) t

/-- Attempt of `down_revision\s*=\s*['"][^'"]*['"]` at the head. -/
def matchDownrevAt (l : Str) : Option Str :=
  match matchLit downrevKw l with
  | none => none
  | some r =>
    match (spanP isWs r).2 with
    | '=' :: r2 =>
      match (spanP isWs r2).2 with
      | q :: r4 =>
        if isQuote q then
          match (spanP (fun c => !isQuote c) r4).2 with
          | q2 :: r6 => if isQuote q2 then some r6 else none
          | [] => none
        else none
      | [] => none
    | _ => none

/-- `text.replace(/down_revision\s*=\s*['"][^'"]*['"]/, repl)`. -/
def replaceDownrev (repl : Str) : Str → Str
  | [] => []
  | c :: t =>
    match matchDownrevAt (c :: t) with
    | some rest => repl ++ rest
    | none => c :: replaceDownrev repl t

def revisesSpKw : Str := ['R', 'e', 'v', 'i', 's', 'e', 's', ':', ' ']
def downrevEqQuote : Str := downrevKw ++ [' ', '=', ' ', '"']
def downrevNone : Str := downrevKw ++ [' ', '=', ' '] ++ noneTok

/-- The text computation inside `modifyDependency`: the two generic
replacements, then the two no-parent replacements when the new parent is
the root sentinel `<base>` (or the literal `None`). -/
def modifyDependencyText (text newParent : Str) : Str :=
  let t1 := replaceRevises (revisesSpKw ++ newParent) true text
  let t2 := replaceDownrev (downrevEqQuote ++ newParent ++ ['"']) t1
  if newParent == baseTok || newParent == noneTok then
    let t3 := replaceRevises revisesKw true t2
    replaceDownrev downrevNone t3
  else t2

/-! ### Derived definitions used by the statements -/

/-- The id captured by a history line when it is a well-formed header. -/
def headerId1 (l : Str) : Option Str :=
  let t := trimStr l
  if startsWithStr revKw t then (findRevMatch t).map Prod.fst else none

/-- The ids of the well-formed header lines of a blob, in scan order. -/
def headerIds (lines : List Str) : List Str :=
  lines.filterMap headerId1

/-- The ids held by a parse state: pushed records then the open one. -/
def stateIds (s : PState) : List Str :=
  s.revs.map (fun r => r.id) ++ s.acc.id.toList

/-- Invariant of every record emitted by the parser. -/
def EmittedOk (cur hd : List Str) (r : RevisionInfo) : Prop :=
  r.shortId = r.id.take 8 ∧ r.id ≠ [] ∧ (∀ c ∈ r.id, isHex c = true) ∧
    r.isCurrent = cur.contains r.id ∧ r.isHead = hd.contains r.id

/-- Invariant of the accumulator: whenever an id is set, the short id is
its 8-character truncation and the id is a nonempty hex run. -/
def AccOk (p : PendingRev) : Prop :=
  ∀ i, p.id = some i →
    p.shortId = some (i.take 8) ∧ i ≠ [] ∧ ∀ c ∈ i, isHex c = true

def StateOk (cur hd : List Str) (s : PState) : Prop :=
  AccOk s.acc ∧ ∀ r ∈ s.revs, EmittedOk cur hd r

/-! ### Parser invariant lemmas -/

theorem attachMsg_id (p : PendingRev) (msgs : List Str) :
    (attachMsg p msgs).id = p.id := by
  unfold attachMsg; split <;> rfl

theorem attachMsg_shortId (p : PendingRev) (msgs : List Str) :
    (attachMsg p msgs).shortId = p.shortId := by
  unfold attachMsg; split <;> rfl

theorem tryRevAt_hex (l i st : Str) (h : tryRevAt l = some (i, st)) :
    i ≠ [] ∧ ∀ c ∈ i, isHex c = true := by
  unfold tryRevAt at h
  cases hm : matchLit revSpKw l with
  | none => rw [hm] at h; simp at h
  | some r =>
    rw [hm] at h
    simp only at h
    split at h
    · simp at h
    · rename_i he
      have hi : i = r.takeWhile isHex := by
        have := h
        simp only [Option.some.injEq, Prod.mk.injEq] at this
        exact this.1.symm
      constructor
      · rw [hi]
        intro hnil
        rw [hnil] at he
        simp at he
      · intro c hc
        rw [hi] at hc
        exact List.mem_takeWhile_imp hc

theorem findRevMatch_hex (l i st : Str) (h : findRevMatch l = some (i, st)) :
    i ≠ [] ∧ ∀ c ∈ i, isHex c = true := by
  induction l with
  | nil => simp [findRevMatch] at h
  | cons c t ih =>
    rw [findRevMatch] at h
    cases ht : tryRevAt (c :: t) with
    | some r =>
      rw [ht] at h
      simp only [Option.some.injEq] at h
      exact tryRevAt_hex (c :: t) i st (by rw [ht, h])
    | none => rw [ht] at h; exact ih h

theorem flush_ids (cur hd : List Str) (s : PState) :
    (pendingFlush cur hd s).map (fun r => r.id) = s.acc.id.toList := by
  unfold pendingFlush
  cases hid : s.acc.id with
  | none => rfl
  | some i =>
    simp only [List.map_cons, List.map_nil, Option.toList_some]
    congr 1
    show (attachMsg s.acc s.msgs).id.getD [] = i
    rw [attachMsg_id, hid]
    rfl

theorem flush_ok (cur hd : List Str) (s : PState) (hs : StateOk cur hd s) :
    ∀ r ∈ pendingFlush cur hd s, EmittedOk cur hd r := by
  intro r hr
  unfold pendingFlush at hr
  cases hid : s.acc.id with
  | none => rw [hid] at hr; simp at hr
  | some i =>
    rw [hid] at hr
    simp only [List.mem_singleton] at hr
    obtain ⟨hsid, hne, hhex⟩ := hs.1 i hid
    subst hr
    have hid' : (completeRevisionInfo (attachMsg s.acc s.msgs) cur hd).id = i := by
      show (attachMsg s.acc s.msgs).id.getD [] = i
      rw [attachMsg_id, hid]; rfl
    refine ⟨?_, ?_, ?_, ?_, ?_⟩
    · show (attachMsg s.acc s.msgs).shortId.getD [] = _
      rw [attachMsg_shortId, hsid, hid']
      rfl
    · rw [hid']; exact hne
    · rw [hid']; exact hhex
    · show cur.contains ((attachMsg s.acc s.msgs).id.getD []) = _
      rw [attachMsg_id, hid, hid']
      rfl
    · show hd.contains ((attachMsg s.acc s.msgs).id.getD []) = _
      rw [attachMsg_id, hid, hid']
      rfl

theorem stepLine_ok (cur hd : List Str) (s : PState) (line : Str)
    (hs : StateOk cur hd s) : StateOk cur hd (stepLine cur hd s line) := by
  obtain ⟨hacc, hrevs⟩ := hs
  have hflush := flush_ok cur hd s ⟨hacc, hrevs⟩
  have hmem : ∀ r ∈ s.revs ++ pendingFlush cur hd s, EmittedOk cur hd r := by
    intro r hr
    rcases List.mem_append.mp hr with h | h
    · exact hrevs r h
    · exact hflush r h
  simp only [stepLine]
  split
  · cases heq : findRevMatch (trimStr line) with
    | some pr =>
      obtain ⟨rid, statusPart⟩ := pr
      constructor
      · intro i hi
        have h2 : some rid = some i := hi
        cases Option.some.inj h2
        obtain ⟨hne, hhex⟩ := findRevMatch_hex _ _ _ heq
        exact ⟨rfl, hne, hhex⟩
      · exact hmem
    | none =>
      constructor
      · intro i hi
        exact Option.noConfusion hi
      · exact hmem
  · repeat' split
    all_goals exact ⟨hacc, hrevs⟩

theorem stepLine_ids (cur hd : List Str) (s : PState) (line : Str) :
    stateIds (stepLine cur hd s line) = stateIds s ++ (headerId1 line).toList := by
  simp only [stepLine, headerId1]
  by_cases h1 : startsWithStr revKw (trimStr line) = true
  · simp only [h1, if_true]
    cases heq : findRevMatch (trimStr line) with
    | some pr =>
      obtain ⟨rid, statusPart⟩ := pr
      simp [stateIds, flush_ids, List.map_append, List.append_assoc]
    | none =>
      simp [stateIds, flush_ids, List.map_append, List.append_assoc]
  · simp only [h1, if_false, Bool.false_eq_true]
    simp only [Option.toList_none, List.append_nil]
    repeat' split
    all_goals rfl

theorem foldl_ok (cur hd : List Str) (lines : List Str) (s : PState)
    (hs : StateOk cur hd s) :
    StateOk cur hd (lines.foldl (stepLine cur hd) s) := by
  induction lines generalizing s with
  | nil => exact hs
  | cons l r ih => exact ih _ (stepLine_ok cur hd s l hs)

theorem foldl_ids (cur hd : List Str) (lines : List Str) (s : PState) :
    stateIds (lines.foldl (stepLine cur hd) s) = stateIds s ++ headerIds lines := by
  induction lines generalizing s with
  | nil => simp [headerIds]
  | cons l r ih =>
    rw [List.foldl_cons, ih, stepLine_ids]
    cases h : headerId1 l <;>
      simp [headerIds, List.filterMap_cons, h, List.append_assoc]

theorem initPState_ok (cur hd : List Str) : StateOk cur hd initPState := by
  constructor
  · intro i hi
    exact Option.noConfusion hi
  · intro r hr
    exact absurd hr (by simp [initPState])

theorem parseHistory_mem (out : Str) (cur hd : List Str) (r : RevisionInfo)
    (hr : r ∈ parseHistory out cur hd) : EmittedOk cur hd r := by
  unfold parseHistory at hr
  rw [List.mem_reverse] at hr
  have hfin : StateOk cur hd ((splitOnNl out).foldl (stepLine cur hd) initPState) :=
    foldl_ok cur hd _ _ (initPState_ok cur hd)
  rcases List.mem_append.mp hr with h | h
  · exact hfin.2 r h
  · exact flush_ok cur hd _ hfin r h

theorem parseHistory_ids (out : Str) (cur hd : List Str) :
    (parseHistory out cur hd).map (fun r => r.id)
      = (headerIds (splitOnNl out)).reverse := by
  unfold parseHistory
  rw [List.map_reverse]
  congr 1
  rw [List.map_append, flush_ids]
  have h := foldl_ids cur hd (splitOnNl out) initPState
  simpa [stateIds, initPState] using h

/-! ### Graph query engine lemmas -/

/-- A two-node cyclic graph (`aa → bb → aa`), as the lenient parser can
produce from inconsistent input. -/
def cycNodeA : RevisionInfo :=
  ⟨['a', 'a'], ['a', 'a'], [], [], some ['b', 'b'], false, false, false,
    none, none⟩

def cycNodeB : RevisionInfo :=
  ⟨['b', 'b'], ['b', 'b'], [], [], some ['a', 'a'], false, false, false,
    none, none⟩

theorem someApplied_true_iff (all : List RevisionInfo) (nId : Str)
    (fuel : Nat) :
    ∀ (l : List RevisionInfo) (b : Bool), someApplied all nId fuel l = some b →
      (b = true ↔ ∃ c ∈ l, c.isCurrent = true ∧
        isAncestorFuel all nId (some c) fuel = some true) := by
  intro l
  induction l with
  | nil =>
    intro b h
    rw [someApplied] at h
    cases Option.some.inj h
    simp
  | cons r rest ih =>
    intro b h
    rw [someApplied] at h
    by_cases hc : r.isCurrent = true
    · rw [if_pos hc] at h
      cases hanc : isAncestorFuel all nId (some r) fuel with
      | none => rw [hanc] at h; exact Option.noConfusion h
      | some bb =>
        rw [hanc] at h
        cases bb with
        | true =>
          cases Option.some.inj h
          simp only [true_iff]
          exact ⟨r, List.mem_cons_self r rest, hc, hanc⟩
        | false =>
          have hih := ih b h
          rw [hih]
          constructor
          · intro ⟨c, hcm, hcc, hca⟩
            exact ⟨c, List.mem_cons_of_mem r hcm, hcc, hca⟩
          · intro ⟨c, hcm, hcc, hca⟩
            rcases List.mem_cons.mp hcm with hcr | hcm2
            · subst hcr
              rw [hanc] at hca
              exact absurd (Option.some.inj hca) (by simp)
            · exact ⟨c, hcm2, hcc, hca⟩
    · rw [if_neg hc] at h
      have hih := ih b h
      rw [hih]
      constructor
      · intro ⟨c, hcm, hcc, hca⟩
        exact ⟨c, List.mem_cons_of_mem r hcm, hcc, hca⟩
      · intro ⟨c, hcm, hcc, hca⟩
        rcases List.mem_cons.mp hcm with hcr | hcm2
        · subst hcr; exact absurd hcc hc
        · exact ⟨c, hcm2, hcc, hca⟩

/-! ### Replacement machinery lemmas -/

theorem matchLit_self_append (lit r : Str) : matchLit lit (lit ++ r) = some r := by
  induction lit with
  | nil => rfl
  | cons a p ih => simp [matchLit, ih]

theorem spanP_append (p : Char → Bool) (a b : Str) (b0 : Char)
    (ha : ∀ c ∈ a, p c = true) (hb : p b0 = false) :
    spanP p (a ++ b0 :: b) = (a, b0 :: b) := by
  induction a with
  | nil => simp [spanP, hb]
  | cons c t ih =>
    have hc : p c = true := ha c (List.mem_cons_self c t)
    have ht : ∀ c2 ∈ t, p c2 = true := fun c2 h2 => ha c2 (List.mem_cons_of_mem c h2)
    simp [spanP, hc, ih ht]

theorem isWs_of_quote (q : Char) (hq : isQuote q = true) : isWs q = false := by
  rcases Bool.or_eq_true_iff.mp hq with h | h
  · rw [decide_eq_true_eq] at h; subst h; rfl
  · rw [decide_eq_true_eq] at h; subst h; rfl

theorem matchRevisesAt_site (w y z : Str) (x nl : Char)
    (hw : ∀ c ∈ w, isWs c = true) (hx : isWs x = false)
    (hxy : ∀ c ∈ x :: y, isNL c = false) (hnl : isNL nl = true) :
    matchRevisesAt (revisesKw ++ (w ++ (x :: (y ++ (nl :: z)))))
      = some (nl :: z) := by
  unfold matchRevisesAt
  rw [matchLit_self_append]
  have s1 : spanP isWs (w ++ (x :: (y ++ (nl :: z)))) = (w, x :: (y ++ (nl :: z))) :=
    spanP_append isWs w (y ++ (nl :: z)) x hw hx
  have s2 : spanP (fun c => !isNL c) ((x :: y) ++ (nl :: z)) = (x :: y, nl :: z) :=
    spanP_append (fun c => !isNL c) (x :: y) z nl
      (fun c h => by simp [hxy c h]) (by simp [hnl])
  rw [List.cons_append] at s2
  simp only [s1, s2]

theorem matchDownrevAt_site (u v val z : Str) (q1 q2 : Char)
    (hu : ∀ c ∈ u, isWs c = true) (hv : ∀ c ∈ v, isWs c = true)
    (hq1 : isQuote q1 = true) (hq2 : isQuote q2 = true)
    (hval : ∀ c ∈ val, isQuote c = false) :
    matchDownrevAt (downrevKw ++ (u ++ ('=' :: (v ++ (q1 :: (val ++ (q2 :: z)))))))
      = some z := by
  unfold matchDownrevAt
  rw [matchLit_self_append]
  have s1 : spanP isWs (u ++ ('=' :: (v ++ (q1 :: (val ++ (q2 :: z))))))
      = (u, '=' :: (v ++ (q1 :: (val ++ (q2 :: z))))) :=
    spanP_append isWs u _ '=' hu (by rfl)
  have s2 : spanP isWs (v ++ (q1 :: (val ++ (q2 :: z))))
      = (v, q1 :: (val ++ (q2 :: z))) :=
    spanP_append isWs v _ q1 hv (isWs_of_quote q1 hq1)
  have s3 : spanP (fun c => !isQuote c) (val ++ (q2 :: z)) = (val, q2 :: z) :=
    spanP_append (fun c => !isQuote c) val z q2
      (fun c h => by simp [hval c h]) (by simp [hq2])
  simp only [s1, s2, s3, hq1, hq2, if_true]

theorem replaceRevises_match (repl l r : Str) (h : matchRevisesAt l = some r) :
    replaceRevises repl true l = repl ++ r := by
  cases l with
  | nil => simp [matchRevisesAt, matchLit, revisesKw] at h
  | cons c t => simp [replaceRevises, h]

theorem replaceDownrev_match (repl l r : Str) (h : matchDownrevAt l = some r) :
    replaceDownrev repl l = repl ++ r := by
  cases l with
  | nil => simp [matchDownrevAt, matchLit, downrevKw] at h
  | cons c t => simp [replaceDownrev, h]

theorem replaceRevises_append (repl : Str) (s : Bool) (pre rest : Str)
    (h : ∀ i, i < pre.length → matchRevisesAt ((pre ++ rest).drop i) = none) :
    replaceRevises repl s (pre ++ rest)
      = pre ++ replaceRevises repl (lineStartAfter s pre) rest := by
  induction pre generalizing s with
  | nil => rfl
  | cons c t ih =>
    have h0 : matchRevisesAt (c :: (t ++ rest)) = none := by
      have hh := h 0 (by simp)
      simpa using hh
    have hrec := ih (isNL c) (fun i hi => by
      have hh := h (i + 1) (by simpa using Nat.succ_lt_succ hi)
      simpa using hh)
    have heq : replaceRevises repl s ((c :: t) ++ rest)
        = c :: replaceRevises repl (isNL c) (t ++ rest) := by
      cases s with
      | false => rfl
      | true =>
        rw [List.cons_append, replaceRevises]
        simp [h0]
    rw [heq, hrec]
    rfl

theorem replaceDownrev_append (repl : Str) (pre rest : Str)
    (h : ∀ i, i < pre.length → matchDownrevAt ((pre ++ rest).drop i) = none) :
    replaceDownrev repl (pre ++ rest) = pre ++ replaceDownrev repl rest := by
  induction pre with
  | nil => rfl
  | cons c t ih =>
    have h0 : matchDownrevAt (c :: (t ++ rest)) = none := by
      have hh := h 0 (by simp)
      simpa using hh
    have hrec := ih (fun i hi => by
      have hh := h (i + 1) (by simpa using Nat.succ_lt_succ hi)
      simpa using hh)
    rw [List.cons_append, replaceDownrev, h0, hrec]
    rfl

theorem replaceDownrev_id (repl : Str) (l : Str)
    (h : ∀ i, i < l.length → matchDownrevAt (l.drop i) = none) :
    replaceDownrev repl l = l := by
  induction l with
  | nil => rfl
  | cons c t ih =>
    have h0 : matchDownrevAt (c :: t) = none := by
      have hh := h 0 (by simp)
      simpa using hh
    have hrec := ih (fun i hi => by
      have hh := h (i + 1) (by simpa using Nat.succ_lt_succ hi)
      simpa using hh)
    rw [replaceDownrev, h0, hrec]

theorem replaceRevises_full (repl pre w y z : Str) (x nl : Char)
    (hw : ∀ c ∈ w, isWs c = true) (hx : isWs x = false)
    (hxy : ∀ c ∈ x :: y, isNL c = false) (hnl : isNL nl = true)
    (hpre : lineStartAfter true pre = true)
    (h : ∀ i, i < pre.length → matchRevisesAt
      ((pre ++ (revisesKw ++ (w ++ (x :: (y ++ (nl :: z)))))).drop i) = none) :
    replaceRevises repl true
        (pre ++ (revisesKw ++ (w ++ (x :: (y ++ (nl :: z))))))
      = pre ++ (repl ++ (nl :: z)) := by
  rw [replaceRevises_append repl true pre _ h, hpre,
    replaceRevises_match repl _ _ (matchRevisesAt_site w y z x nl hw hx hxy hnl)]

theorem replaceDownrev_full (repl pre u v val z : Str) (q1 q2 : Char)
    (hu : ∀ c ∈ u, isWs c = true) (hv : ∀ c ∈ v, isWs c = true)
    (hq1 : isQuote q1 = true) (hq2 : isQuote q2 = true)
    (hval : ∀ c ∈ val, isQuote c = false)
    (h : ∀ i, i < pre.length → matchDownrevAt
      ((pre ++ (downrevKw ++ (u ++ ('=' :: (v ++ (q1 :: (val ++ (q2 :: z)))))))).drop i)
      = none) :
    replaceDownrev repl
        (pre ++ (downrevKw ++ (u ++ ('=' :: (v ++ (q1 :: (val ++ (q2 :: z))))))))
      = pre ++ (repl ++ z) := by
  rw [replaceDownrev_append repl pre _ h,
    replaceDownrev_match repl _ _
      (matchDownrevAt_site u v val z q1 q2 hu hv hq1 hq2 hval)]

/-! ### Claim theorems -/

/-- Claim C1 (code bug): the claim demands that `isAncestor` terminate on a
malformed cyclic graph and answer `false`; the source's loop has no
visited-set, so on the two-node cycle `aa ↔ bb` the walk looking for the
unrelated id `cc` never exits: for every fuel bound the loop is still
running (`none`), hence the code never terminates, contradicting the claim. -/
theorem isAncestor_cycle_never_terminates :
    ∀ fuel : Nat,
      isAncestorFuel [cycNodeA, cycNodeB] ['c', 'c'] (some cycNodeA) fuel
        = none := by
  have key : ∀ n : Nat,
      isAncestorFuel [cycNodeA, cycNodeB] ['c', 'c'] (some cycNodeA) n = none ∧
      isAncestorFuel [cycNodeA, cycNodeB] ['c', 'c'] (some cycNodeB) n = none := by
    intro n
    induction n with
    | zero => exact ⟨rfl, rfl⟩
    | succ k ih =>
      have stepA :
          isAncestorFuel [cycNodeA, cycNodeB] ['c', 'c'] (some cycNodeA) (k + 1)
            = isAncestorFuel [cycNodeA, cycNodeB] ['c', 'c'] (some cycNodeB) k :=
        rfl
      have stepB :
          isAncestorFuel [cycNodeA, cycNodeB] ['c', 'c'] (some cycNodeB) (k + 1)
            = isAncestorFuel [cycNodeA, cycNodeB] ['c', 'c'] (some cycNodeA) k :=
        rfl
      exact ⟨by rw [stepA]; exact ih.2, by rw [stepB]; exact ih.1⟩
  intro fuel
  exact (key fuel).1

/-- Claim C2, counterexample: the status resolver does not collect every
hex token of a line (only the first match per line), and the result is a
list with duplicates, not a set: on the blob `"aa bb\naa"` the token `bb`
is missing and `aa` appears twice. -/
theorem parseCurrentRevisions_not_all_tokens :
    parseCurrentRevisions ("aa bb\naa".data) = [['a', 'a'], ['a', 'a']] ∧
    ¬ ['b', 'b'] ∈ parseCurrentRevisions ("aa bb\naa".data) ∧
    ¬ (parseCurrentRevisions ("aa bb\naa".data)).Nodup ∧
    parseHeadRevisions ("aa bb\naa".data) = [['a', 'a'], ['a', 'a']] := by
  decide

theorem firstHexToken_spec (l t : Str) (h : firstHexToken l = some t) :
    t ≠ [] ∧ ∀ c ∈ t, isHex c = true := by
  induction l with
  | nil => simp [firstHexToken] at h
  | cons c r ih =>
    rw [firstHexToken] at h
    by_cases hc : isHex c = true
    · rw [if_pos hc] at h
      cases Option.some.inj h
      refine ⟨by simp, ?_⟩
      intro c2 hc2
      rcases List.mem_cons.mp hc2 with h2 | h2
      · subst h2; exact hc
      · exact List.mem_takeWhile_imp h2
    · rw [if_neg hc] at h
      exact ih h

/-- Claim C2, amended: each line of the blob contributes at most its first
maximal hex run (so the result length is bounded by the line count, not by
the token count), every collected token is a nonempty hex string, and
duplicates are preserved in the resulting list; downstream use is by
membership only. -/
theorem statusResolver_first_token_per_line (out tok tok2 : Str)
    (h : tok ∈ parseCurrentRevisions out)
    (h2 : tok2 ∈ parseHeadRevisions out) :
    (tok ≠ [] ∧ ∀ c ∈ tok, isHex c = true) ∧
    (tok2 ≠ [] ∧ ∀ c ∈ tok2, isHex c = true) ∧
    (parseCurrentRevisions out).length ≤ (splitOnNl out).length := by
  unfold parseCurrentRevisions at h
  unfold parseHeadRevisions at h2
  obtain ⟨l1, _, hf1⟩ := List.mem_filterMap.mp h
  obtain ⟨l2, _, hf2⟩ := List.mem_filterMap.mp h2
  refine ⟨firstHexToken_spec l1 tok hf1, firstHexToken_spec l2 tok2 hf2, ?_⟩
  exact List.length_filterMap_le firstHexToken (splitOnNl out)

/-- Witness for C2's amended theorem at the blob `"ab cd"`. -/
theorem statusResolver_first_token_per_line_witness :
    ((['a', 'b'] : Str) ≠ [] ∧ ∀ c ∈ (['a', 'b'] : Str), isHex c = true) ∧
    ((['a', 'b'] : Str) ≠ [] ∧ ∀ c ∈ (['a', 'b'] : Str), isHex c = true) ∧
    (parseCurrentRevisions ("ab cd".data)).length
      ≤ (splitOnNl ("ab cd".data)).length :=
  statusResolver_first_token_per_line ("ab cd".data) ['a', 'b'] ['a', 'b']
    (by decide) (by decide)

/-- Claim C4: whenever the applied-status computation terminates within the
given fuel, its boolean answer is `true` exactly when the node is current
or some current node has it as an ancestor; and a current node is always
applied (the disjunction short-circuits, no fuel needed). -/
theorem isApplied_characterization (all : List RevisionInfo)
    (node : RevisionInfo) (fuel : Nat) (b : Bool)
    (h : isAppliedFuel all node fuel = some b) :
    ((b = true) ↔ (node.isCurrent = true ∨ ∃ c ∈ all, c.isCurrent = true ∧
      isAncestorFuel all node.id (some c) fuel = some true)) ∧
    (node.isCurrent = true → isAppliedFuel all node fuel = some true) := by
  constructor
  · unfold isAppliedFuel at h
    by_cases hc : node.isCurrent = true
    · rw [if_pos hc] at h
      cases Option.some.inj h
      simp [hc]
    · rw [if_neg hc] at h
      rw [someApplied_true_iff all node.id fuel all b h]
      constructor
      · intro hex
        exact Or.inr hex
      · intro hor
        rcases hor with hcur | hex
        · exact absurd hcur hc
        · exact hex
  · intro hc
    unfold isAppliedFuel
    rw [if_pos hc]

/-- A current root node and its non-current child, for the C4 witness. -/
def apNodeA : RevisionInfo :=
  ⟨['a', 'a'], ['a', 'a'], [], [], none, true, false, false, none, none⟩

def apNodeB : RevisionInfo :=
  ⟨['b', 'b'], ['b', 'b'], [], [], some ['a', 'a'], false, true, false,
    none, none⟩

/-- Witness for C4 on a concrete two-node graph. -/
theorem isApplied_characterization_witness :
    ((false = true) ↔ (apNodeB.isCurrent = true ∨
      ∃ c ∈ [apNodeA, apNodeB], c.isCurrent = true ∧
        isAncestorFuel [apNodeA, apNodeB] apNodeB.id (some c) 5 = some true)) ∧
    (apNodeB.isCurrent = true →
      isAppliedFuel [apNodeA, apNodeB] apNodeB 5 = some true) :=
  isApplied_characterization [apNodeA, apNodeB] apNodeB 5 false (by decide)

/-- Claim C5: every node emitted by a parse has its status flags equal to
membership of its id in the current / head listing sets, and the
finalisation ignores the header-line hints entirely (replacing the hint
fields of the accumulator never changes the result), so set membership
always overrides the hints. -/
theorem parseHistory_status_overrides_hints (out : Str) (cur hd : List Str)
    (r : RevisionInfo) (h : r ∈ parseHistory out cur hd) :
    r.isCurrent = cur.contains r.id ∧ r.isHead = hd.contains r.id ∧
    ∀ (p : PendingRev) (b1 b2 : Option Bool),
      completeRevisionInfo { p with isCurrent := b1, isHead := b2 } cur hd
        = completeRevisionInfo p cur hd := by
  have hem := parseHistory_mem out cur hd r h
  exact ⟨hem.2.2.2.1, hem.2.2.2.2, fun p b1 b2 => rfl⟩

/-- Witness for C5: a header carrying a `(current)` hint still yields
`isCurrent = false` when the current-set is empty. -/
theorem parseHistory_status_overrides_hints_witness :
    (⟨['a', 'a'], ['a', 'a'], [], [], none, false, false, false, none, none⟩
        : RevisionInfo).isCurrent
      = List.contains [] (['a', 'a'] : Str) ∧
    (⟨['a', 'a'], ['a', 'a'], [], [], none, false, false, false, none, none⟩
        : RevisionInfo).isHead
      = List.contains [] (['a', 'a'] : Str) ∧
    ∀ (p : PendingRev) (b1 b2 : Option Bool),
      completeRevisionInfo { p with isCurrent := b1, isHead := b2 } [] []
        = completeRevisionInfo p [] [] :=
  parseHistory_status_overrides_hints ("Rev: aa (current) (head)".data) [] []
    ⟨['a', 'a'], ['a', 'a'], [], [], none, false, false, false, none, none⟩
    (by decide)

/-- Claim C6: a line that starts with the revision keyword but fails the
hex-id pattern flushes the pending record exactly as a valid header would
(fields intact), starts no partial record (the accumulator is fully
reset), and a following valid header produces the same state as if the
malformed line were absent; the parser is total, so no error is raised. -/
theorem parseHistory_malformed_header_skipped (cur hd : List Str)
    (s : PState) (m v : Str)
    (hm : startsWithStr revKw (trimStr m) = true)
    (hm2 : findRevMatch (trimStr m) = none)
    (hv : startsWithStr revKw (trimStr v) = true) :
    stepLine cur hd s m = ⟨{}, [], false, s.revs ++ pendingFlush cur hd s⟩ ∧
    stepLine cur hd (stepLine cur hd s m) v = stepLine cur hd s v ∧
    ∀ B : List Str, (m :: v :: B).foldl (stepLine cur hd) s
      = (v :: B).foldl (stepLine cur hd) s := by
  have part1 : stepLine cur hd s m
      = ⟨{}, [], false, s.revs ++ pendingFlush cur hd s⟩ := by
    simp only [stepLine, hm, if_true, hm2]
  have part2 : stepLine cur hd (stepLine cur hd s m) v = stepLine cur hd s v := by
    rw [part1]
    simp only [stepLine, hv, if_true]
    cases hfv : findRevMatch (trimStr v) with
    | some pr =>
      obtain ⟨rid, st⟩ := pr
      simp [pendingFlush]
    | none => simp [pendingFlush]
  refine ⟨part1, part2, ?_⟩
  intro B
  simp only [List.foldl_cons]
  rw [part2]

/-- A mid-parse state (open record `aa` with one message line), for the C6
witness. -/
def cexState : PState :=
  ⟨{ id := some ['a', 'a'], shortId := some ['a', 'a'] }, [['m']], true, []⟩

/-- Witness for C6: the malformed header `"Rev: zz"` (z is not hex)
between a pending record and the valid header `"Rev: bb"`. -/
theorem parseHistory_malformed_header_skipped_witness :
    stepLine [] [] cexState ("Rev: zz".data)
      = ⟨{}, [], false, cexState.revs ++ pendingFlush [] [] cexState⟩ ∧
    stepLine [] [] (stepLine [] [] cexState ("Rev: zz".data)) ("Rev: bb".data)
      = stepLine [] [] cexState ("Rev: bb".data) ∧
    (("Rev: zz".data) :: ("Rev: bb".data) :: ["Parent: <base>".data]).foldl
        (stepLine [] []) cexState
      = (("Rev: bb".data) :: ["Parent: <base>".data]).foldl
        (stepLine [] []) cexState := by
  have h := parseHistory_malformed_header_skipped [] [] cexState
    ("Rev: zz".data) ("Rev: bb".data) (by decide) (by decide) (by decide)
  exact ⟨h.1, h.2.1, h.2.2 ["Parent: <base>".data]⟩

/-- Claim C7, counterexample: the parser does not deduplicate ids — a blob
whose two valid headers carry the same id yields two records with equal
ids, so ids are not pairwise distinct for every input blob. -/
theorem parseHistory_duplicate_ids :
    (parseHistory ("Rev: aa\nRev: aa".data) [] []).map (fun r => r.id)
      = [['a', 'a'], ['a', 'a']] ∧
    ¬ ((parseHistory ("Rev: aa\nRev: aa".data) [] []).map
        (fun r => r.id)).Nodup := by
  decide

/-- Claim C7, amended: every emitted record has a nonempty lowercase-hex
id, and the emitted id sequence is the reversed sequence of the valid
header ids, so the ids are pairwise distinct whenever the blob's valid
header lines carry pairwise distinct ids (the parser itself never
deduplicates). -/
theorem parseHistory_ids_hex_and_unique (out : Str) (cur hd : List Str)
    (h : (headerIds (splitOnNl out)).Nodup) :
    ((parseHistory out cur hd).map (fun r => r.id)).Nodup ∧
    ∀ r ∈ parseHistory out cur hd, r.id ≠ [] ∧ ∀ c ∈ r.id, isHex c = true := by
  constructor
  · rw [parseHistory_ids]
    exact List.nodup_reverse.mpr h
  · intro r hr
    have hem := parseHistory_mem out cur hd r hr
    exact ⟨hem.2.1, hem.2.2.1⟩

/-- Witness for C7's amended theorem on a two-header blob. -/
theorem parseHistory_ids_hex_and_unique_witness :
    ((parseHistory ("Rev: aa\nRev: bb".data) [] []).map
        (fun r => r.id)).Nodup ∧
    ∀ r ∈ parseHistory ("Rev: aa\nRev: bb".data) [] [],
      r.id ≠ [] ∧ ∀ c ∈ r.id, isHex c = true :=
  parseHistory_ids_hex_and_unique ("Rev: aa\nRev: bb".data) [] [] (by decide)

/-- Claim C9: every node of a built graph has `shortId` equal to the first
8 characters of its id (the whole id when shorter). -/
theorem parseHistory_shortId_take8 (out : Str) (cur hd : List Str)
    (r : RevisionInfo) (h : r ∈ parseHistory out cur hd) :
    r.shortId = r.id.take 8 :=
  (parseHistory_mem out cur hd r h).1

/-- Witness for C9 on a 12-character id. -/
theorem parseHistory_shortId_take8_witness :
    (⟨"a1b2c3d4e5f6".data, "a1b2c3d4".data, [], [], none, false, false,
        false, none, none⟩ : RevisionInfo).shortId
      = (⟨"a1b2c3d4e5f6".data, "a1b2c3d4".data, [], [], none, false, false,
        false, none, none⟩ : RevisionInfo).id.take 8 :=
  parseHistory_shortId_take8 ("Rev: a1b2c3d4e5f6".data) [] []
    ⟨"a1b2c3d4e5f6".data, "a1b2c3d4".data, [], [], none, false, false,
      false, none, none⟩
    (by decide)

/-- Claim C3: invoked with the root sentinel `<base>` as the new parent,
the mutation text computation rewrites the first `Revises:` line to the
bare form `Revises:` and the first quoted `down_revision` assignment to
`down_revision = None` — both explicit no-parent forms, no identifier
substituted.  The hypotheses delimit the artifact's two match sites: the
`Revises:` line starts a line after `pre` and carries an id (`x :: y`,
no line break, first non-blank after the keyword), the assignment is
`down_revision ⟨ws⟩ = ⟨ws⟩ ⟨quote⟩val⟨quote⟩`, and no earlier position of
the respective intermediate texts matches either pattern. -/
theorem modifyDependency_root_sentinel
    (pre w y mid u v val post : Str) (x q1 q2 : Char)
    (hw : ∀ c ∈ w, isWs c = true) (hx : isWs x = false)
    (hxy : ∀ c ∈ x :: y, isNL c = false)
    (hu : ∀ c ∈ u, isWs c = true) (hv : ∀ c ∈ v, isWs c = true)
    (hq1 : isQuote q1 = true) (hq2 : isQuote q2 = true)
    (hval : ∀ c ∈ val, isQuote c = false)
    (hpre : lineStartAfter true pre = true)
    (H1 : ∀ i, i < pre.length → matchRevisesAt
      ((pre ++ (revisesKw ++ (w ++ (x :: (y ++ ('\n' :: (mid ++ (downrevKw ++
        (u ++ ('=' :: (v ++ (q1 :: (val ++ (q2 :: post)))))))))))))).drop i) = none)
    (H2 : ∀ i, i < (pre ++ (revisesSpKw ++ (baseTok ++ ('\n' :: mid)))).length →
      matchDownrevAt (((pre ++ (revisesSpKw ++ (baseTok ++ ('\n' :: mid)))) ++
        (downrevKw ++ (u ++ ('=' :: (v ++ (q1 :: (val ++ (q2 :: post)))))))).drop i)
        = none)
    (H3 : ∀ i, i < pre.length → matchRevisesAt
      ((pre ++ (revisesKw ++ ([' '] ++ ('<' :: (['b', 'a', 's', 'e', '>'] ++
        ('\n' :: (mid ++ (downrevEqQuote ++ (baseTok ++ ('"' :: post)))))))))).drop i)
        = none)
    (H4 : ∀ i, i < (pre ++ (revisesKw ++ ('\n' :: mid))).length →
      matchDownrevAt (((pre ++ (revisesKw ++ ('\n' :: mid))) ++
        (downrevKw ++ ([' '] ++ ('=' :: ([' '] ++ ('"' :: (baseTok ++ ('"' :: post)))))))).drop i)
        = none) :
    modifyDependencyText
        (pre ++ (revisesKw ++ (w ++ (x :: (y ++ ('\n' :: (mid ++ (downrevKw ++
          (u ++ ('=' :: (v ++ (q1 :: (val ++ (q2 :: post))))))))))))))
        baseTok
      = pre ++ (revisesKw ++ ('\n' :: (mid ++ (downrevNone ++ post)))) := by
  have e1 := replaceRevises_full (revisesSpKw ++ baseTok) pre w y
    (mid ++ (downrevKw ++ (u ++ ('=' :: (v ++ (q1 :: (val ++ (q2 :: post))))))))
    x '\n' hw hx hxy (by decide) hpre H1
  have e2 := replaceDownrev_full (downrevEqQuote ++ baseTok ++ ['"'])
    (pre ++ (revisesSpKw ++ (baseTok ++ ('\n' :: mid)))) u v val post q1 q2
    hu hv hq1 hq2 hval H2
  have e3 := replaceRevises_full revisesKw pre [' '] ['b', 'a', 's', 'e', '>']
    (mid ++ (downrevEqQuote ++ (baseTok ++ ('"' :: post)))) '<' '\n'
    (by decide) (by decide) (by decide) (by decide) hpre H3
  have e4 := replaceDownrev_full downrevNone (pre ++ (revisesKw ++ ('\n' :: mid)))
    [' '] [' '] baseTok post '"' '"'
    (by decide) (by decide) (by decide) (by decide) (by decide) H4
  have s1 : pre ++ ((revisesSpKw ++ baseTok) ++ ('\n' :: (mid ++ (downrevKw ++
      (u ++ ('=' :: (v ++ (q1 :: (val ++ (q2 :: post)))))))))) =
      (pre ++ (revisesSpKw ++ (baseTok ++ ('\n' :: mid)))) ++
        (downrevKw ++ (u ++ ('=' :: (v ++ (q1 :: (val ++ (q2 :: post))))))) := by
    simp [List.append_assoc]
  have s2 : (pre ++ (revisesSpKw ++ (baseTok ++ ('\n' :: mid)))) ++
      ((downrevEqQuote ++ baseTok ++ ['"']) ++ post) =
      pre ++ (revisesKw ++ ([' '] ++ ('<' :: (['b', 'a', 's', 'e', '>'] ++
        ('\n' :: (mid ++ (downrevEqQuote ++ (baseTok ++ ('"' :: post))))))))) := by
    simp [revisesSpKw, revisesKw, baseTok, List.append_assoc]
  have s3 : pre ++ (revisesKw ++ ('\n' :: (mid ++ (downrevEqQuote ++
      (baseTok ++ ('"' :: post)))))) =
      (pre ++ (revisesKw ++ ('\n' :: mid))) ++
        (downrevKw ++ ([' '] ++ ('=' :: ([' '] ++ ('"' :: (baseTok ++ ('"' :: post))))))) := by
    simp [downrevEqQuote, downrevKw, List.append_assoc]
  simp only [modifyDependencyText, beq_self_eq_true, Bool.true_or, if_true]
  rw [e1, s1, e2, s2, e3, s3, e4]
  simp [List.append_assoc]

/-- Witness for C3 on a realistic migration artifact (old parent
`cafebabe`, docstring header, single-quoted assignment). -/
theorem modifyDependency_root_sentinel_witness :
    modifyDependencyText
        (("\"\"\"add users\n\nRevision ID: deadbeef\n".data) ++ (revisesKw ++
          ([' '] ++ ('c' :: (("afebabe".data) ++ ('\n' ::
          (("\"\"\"\nrevision = 'deadbeef'\n".data) ++ (downrevKw ++
          ([' '] ++ ('=' :: ([' '] ++ ('\'' :: (("cafebabe".data) ++
          ('\'' :: ("\nbranch_labels = None\n".data)))))))))))))))
        baseTok
      = ("\"\"\"add users\n\nRevision ID: deadbeef\n".data) ++ (revisesKw ++
          ('\n' :: (("\"\"\"\nrevision = 'deadbeef'\n".data) ++
          (downrevNone ++ ("\nbranch_labels = None\n".data))))) :=
  modifyDependency_root_sentinel
    ("\"\"\"add users\n\nRevision ID: deadbeef\n".data) [' '] ("afebabe".data)
    ("\"\"\"\nrevision = 'deadbeef'\n".data) [' '] [' '] ("cafebabe".data)
    ("\nbranch_labels = None\n".data) 'c' '\'' '\''
    (by decide) (by decide) (by decide) (by decide) (by decide) (by decide)
    (by decide) (by decide) (by decide) (by decide) (by decide) (by decide)
    (by decide)

/-- Claim C10: when the artifact's parent assignment is the unquoted form
`down_revision = None`, a mutation to a non-sentinel parent leaves the
assignment unchanged — both replacement patterns for the assignment
require a quoted value — and only the `Revises:` line is updated. -/
theorem modifyDependency_unquoted_none_unchanged
    (p pre w y mid post : Str) (x : Char)
    (hw : ∀ c ∈ w, isWs c = true) (hx : isWs x = false)
    (hxy : ∀ c ∈ x :: y, isNL c = false)
    (hpre : lineStartAfter true pre = true)
    (hp1 : (p == baseTok) = false) (hp2 : (p == noneTok) = false)
    (H1 : ∀ i, i < pre.length → matchRevisesAt
      ((pre ++ (revisesKw ++ (w ++ (x :: (y ++ ('\n' ::
        (mid ++ (downrevNone ++ post)))))))).drop i) = none)
    (H2 : ∀ i, i < (pre ++ ((revisesSpKw ++ p) ++
        ('\n' :: (mid ++ (downrevNone ++ post))))).length →
      matchDownrevAt ((pre ++ ((revisesSpKw ++ p) ++
        ('\n' :: (mid ++ (downrevNone ++ post))))).drop i) = none) :
    modifyDependencyText
        (pre ++ (revisesKw ++ (w ++ (x :: (y ++ ('\n' ::
          (mid ++ (downrevNone ++ post))))))))
        p
      = pre ++ ((revisesSpKw ++ p) ++ ('\n' :: (mid ++ (downrevNone ++ post)))) := by
  have e1 := replaceRevises_full (revisesSpKw ++ p) pre w y
    (mid ++ (downrevNone ++ post)) x '\n' hw hx hxy (by decide) hpre H1
  simp only [modifyDependencyText, hp1, hp2, Bool.or_self, Bool.false_eq_true,
    if_false]
  rw [e1, replaceDownrev_id _ _ H2]

/-- Witness for C10: re-targeting a root artifact (`down_revision = None`)
to the parent `beefcafe` updates only the `Revises:` line. -/
theorem modifyDependency_unquoted_none_unchanged_witness :
    modifyDependencyText
        (("\"\"\"m\n\n".data) ++ (revisesKw ++ ([' '] ++ ('c' ::
          (("afebabe".data) ++ ('\n' :: (("\"\"\"\n".data) ++
          (downrevNone ++ ("\nb = 1\n".data)))))))))
        ("beefcafe".data)
      = ("\"\"\"m\n\n".data) ++ ((revisesSpKw ++ ("beefcafe".data)) ++
          ('\n' :: (("\"\"\"\n".data) ++ (downrevNone ++ ("\nb = 1\n".data))))) :=
  modifyDependency_unquoted_none_unchanged ("beefcafe".data) ("\"\"\"m\n\n".data)
    [' '] ("afebabe".data) ("\"\"\"\n".data) ("\nb = 1\n".data) 'c'
    (by decide) (by decide) (by decide) (by decide) (by decide) (by decide)
    (by decide) (by decide)
